import Mathlib

/-!
Shallow embedding of the wealth-advisor RAG pipeline
(`backend/app/rag/retriever.py`, `backend/app/rag/reranker.py`,
`backend/app/rag/chunker.py`, `backend/app/graphs/nodes.py`,
`backend/app/graphs/workflow.py`) together with theorems settling the
frozen claims about it.

Conventions of the embedding:
* Python `uuid.UUID` values are represented by `Nat`.
* Python `float` scores are represented by `ℚ` (exact arithmetic).
* Python dictionaries with string keys holding heterogeneous values
  (`chunk_metadata`, workflow `flags`, the per-chunk dicts built by
  `retrieve_evidence`) are represented by association lists
  `List (String × PyVal)` looked up with `dget`/`dgetD`; dict subscripting
  `d[k]` is modelled by `dgetD d k PyVal.none` (on every dict the pipeline
  builds, the subscripted keys are present, so the `KeyError` path is
  unreachable there).
* Fallible effects (database persistence, UUID parsing, chat-model calls)
  are `Except String`-valued parameters.
-/

set_option autoImplicit false

namespace WealthAdvisor

/-- Python values stored in string-keyed dicts (`Any`-typed slots). -/
inductive PyVal where
  | none : PyVal
  | str (s : String) : PyVal
  | int (n : Int) : PyVal
  | rat (q : ℚ) : PyVal
  | bool (b : Bool) : PyVal
  | dict (entries : List (String × PyVal)) : PyVal

/-- `d.get(k)`: first value bound to key `k`, if any. -/
def dget (d : List (String × PyVal)) (k : String) : Option PyVal :=
  (d.find? (fun p => p.1 == k)).map (fun p => p.2)

/-- `d.get(k, default)`. -/
def dgetD (d : List (String × PyVal)) (k : String) (dflt : PyVal) : PyVal :=
  (dget d k).getD dflt

/-- `d[k] = v`: overwrite the first binding of `k` in place, or append. -/
def dset (d : List (String × PyVal)) (k : String) (v : PyVal) : List (String × PyVal) :=
  if (d.find? (fun p => p.1 == k)).isSome then
    d.map (fun p => if p.1 == k then (k, v) else p)
  else
    d ++ [(k, v)]

/-- Python `==` between a dict value and a string literal
(cross-type comparison is `False` in Python). -/
def PyVal.eqStr : PyVal → String → Bool
  | .str s, t => s == t
  | _, _ => false

/-- Python truthiness of a value. -/
def pyTruthy : PyVal → Bool
  | .none => false
  | .str s => s ≠ ""
  | .int n => n ≠ 0
  | .rat q => q ≠ 0
  | .bool b => b
  | .dict d => !d.isEmpty

/-- Python `str()` on the value kinds the pipeline interpolates. -/
def pyStr : PyVal → String
  | .none => "None"
  | .str s => s
  | .int n => toString n
  | .rat q => toString q
  | .bool b => if b then "True" else "False"
  | .dict _ => "dict"

/-- The underlying dict of a value known to be a dict (`{}` otherwise;
the pipeline only applies this where the value is a dict). -/
def PyVal.asDict : PyVal → List (String × PyVal)
  | .dict d => d
  | _ => []

/-- The underlying string of a value known to be a string (`""` otherwise;
the pipeline only applies this where the value is a string). -/
def PyVal.asStr : PyVal → String
  | .str s => s
  | _ => ""

/-! ## Retriever (`backend/app/rag/retriever.py`) -/

/-- A row of the `chunks` table. -/
structure ChunkRow where
  id : Nat
  document_id : Nat
  tenant_id : Nat
  client_id : Option Nat
  content : String
  chunk_metadata : Option (List (String × PyVal))
  embedding : List ℚ

/-- A row of the `documents` table. -/
structure DocRow where
  id : Nat
  title : Option String
  source_url : Option String
  source_type : String
  company_name : Option String

/-- The store the SQL queries run against. -/
structure Database where
  chunks : List ChunkRow
  documents : List DocRow

/-- `RetrievedChunk` dataclass: a retrieved chunk with relevance score. -/
structure RetrievedChunk where
  id : Nat
  document_id : Nat
  content : String
  metadata : List (String × PyVal)
  score : ℚ
  doc_title : Option String
  source_url : Option String

/-- Case-insensitive containment: `hay ILIKE '%pat%'` on non-NULL `hay`. -/
def ilikeContains (pat hay : String) : Bool :=
  let p := pat.toLower.data
  let h := hay.toLower.data
  (List.range (h.length + 1)).any (fun i => p.isPrefixOf (h.drop i))

/-- `d.company_name ILIKE :company` with `:company = '%pat%'`;
a NULL `company_name` never matches. -/
def companyMatches (pat : String) : Option String → Bool
  | Option.none => false
  | some nm => ilikeContains pat nm

/-- The `WHERE` predicate of `Retriever._vector_search`: the mandatory
tenant equality, then the optional ANDed filters.  Python truthiness of
the optional arguments is preserved: a `None` client id, a `None` or
empty `doc_types` list, and a `None` or empty `company` string each skip
their filter. -/
def vectorSearchPred (tenantId : Nat) (clientId : Option Nat)
    (docTypes : Option (List String)) (company : Option String)
    (c : ChunkRow) (d : DocRow) : Bool :=
  c.tenant_id == tenantId
    && (match clientId with
        | Option.none => true
        | some cid => c.client_id == some cid)
    && (match docTypes with
        | Option.none => true
        | some ts => ts.isEmpty || ts.contains d.source_type)
    && (match company with
        | Option.none => true
        | some pat => pat == "" || companyMatches pat d.company_name)

/-- `JOIN documents d ON c.document_id = d.id`. -/
def joinRows (db : Database) : List (ChunkRow × DocRow) :=
  db.chunks.flatMap (fun c =>
    (db.documents.filter (fun d => d.id == c.document_id)).map (fun d => (c, d)))

/-- Insert into a list sorted by ascending `key` (a model of SQL
`ORDER BY`). -/
def insertByKey (key : ChunkRow × DocRow → ℚ) (x : ChunkRow × DocRow) :
    List (ChunkRow × DocRow) → List (ChunkRow × DocRow)
  | [] => [x]
  | y :: ys => if key x ≤ key y then x :: y :: ys else y :: insertByKey key x ys

/-- Sort by ascending `key` (insertion sort). -/
def sortByKey (key : ChunkRow × DocRow → ℚ) (l : List (ChunkRow × DocRow)) :
    List (ChunkRow × DocRow) :=
  l.foldr (insertByKey key) []

/-- `Retriever._vector_search`, at the level of selected rows: join,
filter by the mandatory tenant predicate and the optional filters,
`ORDER BY` the pgvector cosine distance `c.embedding <=> query`
(`dist` abstracts the `<=>` operator), `LIMIT top_k`. -/
def vectorSearchRows (dist : List ℚ → List ℚ → ℚ) (db : Database)
    (queryEmbedding : List ℚ) (tenantId : Nat) (clientId : Option Nat)
    (docTypes : Option (List String)) (company : Option String)
    (topK : Nat) : List (ChunkRow × DocRow) :=
  let filtered := (joinRows db).filter
    (fun cd => vectorSearchPred tenantId clientId docTypes company cd.1 cd.2)
  (sortByKey (fun cd => dist cd.1.embedding queryEmbedding) filtered).take topK

/-- The `SELECT` list of `_vector_search`, building a `RetrievedChunk`
from a joined row: `score = 1 - (c.embedding <=> query)`,
`metadata = row.chunk_metadata or {}`. -/
def rowToRetrieved (dist : List ℚ → List ℚ → ℚ) (queryEmbedding : List ℚ)
    (cd : ChunkRow × DocRow) : RetrievedChunk :=
  { id := cd.1.id
    document_id := cd.1.document_id
    content := cd.1.content
    metadata := (cd.1.chunk_metadata).getD []
    score := 1 - dist cd.1.embedding queryEmbedding
    doc_title := cd.2.title
    source_url := cd.2.source_url }

/-- `Retriever._vector_search`. -/
def vectorSearch (dist : List ℚ → List ℚ → ℚ) (db : Database)
    (queryEmbedding : List ℚ) (tenantId : Nat) (clientId : Option Nat)
    (docTypes : Option (List String)) (company : Option String)
    (topK : Nat) : List RetrievedChunk :=
  (vectorSearchRows dist db queryEmbedding tenantId clientId docTypes company topK).map
    (rowToRetrieved dist queryEmbedding)

/-- `Retriever.retrieve`: embed the query (`embed` abstracts the
embedding capability) and run the vector search. -/
def retrieve (embed : String → List ℚ) (dist : List ℚ → List ℚ → ℚ)
    (db : Database) (query : String) (tenantId : Nat) (clientId : Option Nat)
    (docTypes : Option (List String)) (company : Option String)
    (topK : Nat) : List RetrievedChunk :=
  vectorSearch dist db (embed query) tenantId clientId docTypes company topK

/-- `Retriever.retrieve_by_ids`, at the level of selected rows:
`WHERE c.id IN chunk_ids AND c.tenant_id = tenant_id`, joined with
`documents`. -/
def retrieveByIdsRows (db : Database) (chunkIds : List Nat) (tenantId : Nat) :
    List (ChunkRow × DocRow) :=
  (joinRows db).filter
    (fun cd => chunkIds.contains cd.1.id && cd.1.tenant_id == tenantId)

/-- `Retriever.retrieve_by_ids` (score fixed at `1.0`). -/
def retrieveByIds (db : Database) (chunkIds : List Nat) (tenantId : Nat) :
    List RetrievedChunk :=
  (retrieveByIdsRows db chunkIds tenantId).map (fun cd =>
    { id := cd.1.id
      document_id := cd.1.document_id
      content := cd.1.content
      metadata := (cd.1.chunk_metadata).getD []
      score := 1
      doc_title := cd.2.title
      source_url := cd.2.source_url })

/-- The interleaving loop of `Retriever.merge_and_dedupe`: walk
`zip(vector_results, keyword_results)`, appending at each rank the vector
item then the keyword item, each skipped when its id was already seen.
Returns the emitted items and the final seen-id set. -/
def interleaveStep (seen : List Nat) :
    List (RetrievedChunk × RetrievedChunk) → List RetrievedChunk × List Nat
  | [] => ([], seen)
  | (v, k) :: rest =>
    if v.id ∈ seen then
      if k.id ∈ seen then
        interleaveStep seen rest
      else
        let r := interleaveStep (k.id :: seen) rest
        (k :: r.1, r.2)
    else
      if k.id ∈ v.id :: seen then
        let r := interleaveStep (v.id :: seen) rest
        (v :: r.1, r.2)
      else
        let r := interleaveStep (k.id :: v.id :: seen) rest
        (v :: k :: r.1, r.2)

/-- `Retriever.merge_and_dedupe`: the interleaving phase over the zipped
prefix, then the items of each full input list whose id is not in the
seen set of that phase, vector remainder first. -/
def mergeAndDedupe (vectorResults keywordResults : List RetrievedChunk) :
    List RetrievedChunk :=
  let (merged, seen) := interleaveStep [] (vectorResults.zip keywordResults)
  merged
    ++ vectorResults.filter (fun c => !(seen.contains c.id))
    ++ keywordResults.filter (fun c => !(seen.contains c.id))

/-! ## Reranker (`backend/app/rag/reranker.py`) -/

/-- `RerankResult` dataclass: reranked chunk with updated score. -/
structure RerankResult where
  chunk : RetrievedChunk
  rerank_score : ℚ
  original_score : ℚ

/-- `Reranker.compute_evidence_quality`, returning the literal dict the
Python function builds.  Empty input yields the fixed low-quality dict;
otherwise `avg_score` is the mean rerank score, `top_score` the first
result's score, and confidence is `"high"` when `count ≥ 5 ∧ avg ≥ 0.7`,
`"medium"` when `count ≥ 3 ∧ avg ≥ 0.5`, else `"low"`;
`low_evidence = (count < 3)`. -/
def computeEvidenceQuality (results : List RerankResult) : List (String × PyVal) :=
  if results.isEmpty then
    [("evidence_count", .int 0), ("avg_score", .rat 0),
     ("confidence", .str "low"), ("low_evidence", .bool true)]
  else
    let n : ℚ := results.length
    let avgScore : ℚ := (results.map (fun r => r.rerank_score)).sum / n
    let topScore : ℚ := ((results.head?).map (fun r => r.rerank_score)).getD 0
    let confidence : String :=
      if results.length ≥ 5 ∧ avgScore ≥ 7/10 then "high"
      else if results.length ≥ 3 ∧ avgScore ≥ 1/2 then "medium"
      else "low"
    [("evidence_count", .int results.length), ("avg_score", .rat avgScore),
     ("top_score", .rat topScore), ("confidence", .str confidence),
     ("low_evidence", .bool (results.length < 3))]

/-! ## Chunker (`backend/app/rag/chunker.py`), `_split_large_section`.

The Python method first derives the paragraph list by splitting the
section content on blank lines (`re.split(r'\n\s*\n', content)`); the
embedding takes that paragraph list as input and performs the loop's own
`strip()`/skip-empty preprocessing.  Token counting (`tiktoken`) is an
abstract function `tk`.  Each produced chunk is represented as its list
of paragraphs; the Python chunk content is their `"\n\n"`-join. -/

/-- Token length of a paragraph list under the abstract tokenizer. -/
def sumTk (tk : String → Nat) (paras : List String) : Nat :=
  (paras.map tk).sum

/-- The backward walk building the overlap: take paragraphs (given here
in reversed buffer order) while the running total stays ≤ `ov`, stopping
at the first that does not fit. -/
def takeOverlap (tk : String → Nat) (ov : Nat) : List String → Nat → List String
  | [], _ => []
  | p :: ps, acc =>
    if acc + tk p ≤ ov then p :: takeOverlap tk ov ps (acc + tk p) else []

/-- The overlap re-seeded into the next buffer: trailing paragraphs of
the flushed buffer whose cumulative token length ≤ `ov`, in original
order (the Python loop walks `reversed(current_chunk)` and
`insert(0, p)`s). -/
def overlapParas (tk : String → Nat) (ov : Nat) (buf : List String) : List String :=
  (takeOverlap tk ov buf.reverse 0).reverse

/-- The paragraph-packing loop of `_split_large_section`: add the next
paragraph to the buffer while the total stays ≤ `size`; otherwise flush
the buffer as a chunk and restart from the overlap plus the triggering
paragraph; flush any remainder at the end. -/
def splitLoop (tk : String → Nat) (size ov : Nat) :
    List String → List String → Nat → List (List String)
  | [], buf, _ => if buf.isEmpty then [] else [buf]
  | para :: ps, buf, bufTk =>
    if bufTk + tk para ≤ size then
      splitLoop tk size ov ps (buf ++ [para]) (bufTk + tk para)
    else
      let flushed : List (List String) := if buf.isEmpty then [] else [buf]
      let ovs := overlapParas tk ov buf
      flushed ++ splitLoop tk size ov ps (ovs ++ [para]) (sumTk tk ovs + tk para)

/-- Python `str.strip()`: drop leading and trailing whitespace. -/
def pyStrip (s : String) : String :=
  String.mk (((s.data.dropWhile Char.isWhitespace).reverse.dropWhile
    Char.isWhitespace).reverse)

/-- `Chunker._split_large_section` on a paragraph list: strip each
paragraph, skip empties, then run the packing loop with an empty
buffer. -/
def splitLargeSection (tk : String → Nat) (size ov : Nat)
    (paragraphs : List String) : List (List String) :=
  splitLoop tk size ov
    ((paragraphs.map pyStrip).filter (fun p => p ≠ "")) [] 0

/-! ## Workflow state and nodes (`backend/app/graphs/state.py`,
`backend/app/graphs/nodes.py`) -/

/-- `Citation` model: a citation reference to a source chunk.  The
`section` field of the Python model is named `sectionHeading` here
(`section` is a Lean keyword); `page`/`url` hold the raw values read
from the chunk dict (`PyVal.none` for Python `None`). -/
structure Citation where
  chunk_id : PyVal
  doc_title : PyVal
  sectionHeading : PyVal
  quote : String
  page : PyVal
  url : PyVal

/-- `GraphState`: the state object passed through the workflow. -/
structure GState where
  tenant_id : String
  client_id : Option String
  user_id : String
  conversation_id : String
  user_query : String
  intent : String
  doc_types : Option (List String)
  company_filter : Option String
  retrieved_chunks : List (List (String × PyVal))
  retrieval_scores : List (String × PyVal)
  has_sufficient_evidence : Bool
  evidence_quality : List (String × PyVal)
  draft_response : String
  final_response : String
  citations : List Citation
  flags : List (String × PyVal)
  model_name : String
  latency_ms : Int
  error : Option String

/-- The fixed `REFUSAL` template of `nodes.py`. -/
def REFUSAL : String :=
  "I don\x27t have enough information to answer this question.\n\nPlease specify which document or filing to reference, or provide more context about what you\x27re looking for."

/-- The `SYSTEM_PROMPT` of `nodes.py`. -/
def SYSTEM_PROMPT : String :=
  "You are a wealth advisor assistant helping financial advisors research regulatory filings and client documents.\n\nRULES:\n1. Use ONLY the provided sources. Never make up information.\n2. If insufficient evidence, say \"I don\x27t have enough information to answer this.\"\n3. Always cite sources using [1], [2], etc.\n4. Never provide personalized investment advice.\n5. End with confidence level (High/Medium/Low)."

/-- `PROMPTS[intent].format(sources=..., query=...)`, with the
`PROMPTS.get(intent, PROMPTS["qa"])` fallback of `generate_response`. -/
def promptFor (intent sources query : String) : String :=
  if intent = "summary" then
    "Summarize based on these sources:\n\nSOURCES:\n" ++ sources ++ "\n\nSUMMARIZE: " ++ query
  else if intent = "risk" then
    "Analyze risks from these sources:\n\nSOURCES:\n" ++ sources ++ "\n\nANALYSIS: " ++ query
  else if intent = "email" then
    "Draft a client email based on:\n\nSOURCES:\n" ++ sources ++ "\n\nREQUEST: " ++ query ++ "\n\nInclude disclaimer about educational purposes."
  else
    "Answer this question based on the sources:\n\nSOURCES:\n" ++ sources ++ "\n\nQUESTION: " ++ query

/-- The dict `retrieve_evidence` builds for each reranked result
(`nodes.py` lines 84–95); note the metadata is stored under the key
`"chunk_metadata"`. -/
def mkRetrievedDict (r : RerankResult) : List (String × PyVal) :=
  [("id", .str (toString r.chunk.id)),
   ("document_id", .str (toString r.chunk.document_id)),
   ("content", .str r.chunk.content),
   ("chunk_metadata", .dict r.chunk.metadata),
   ("doc_title", match r.chunk.doc_title with
                 | Option.none => PyVal.none
                 | some s => PyVal.str s),
   ("source_url", match r.chunk.source_url with
                  | Option.none => PyVal.none
                  | some s => PyVal.str s),
   ("rerank_score", .rat r.rerank_score)]

/-- The `state.retrieved_chunks` list built by `retrieve_evidence` from
the reranked results. -/
def retrieveEvidenceChunks (reranked : List RerankResult) :
    List (List (String × PyVal)) :=
  reranked.map mkRetrievedDict

/-- `WorkflowNodes.check_evidence`: `count` is the number of retrieved
chunks, `conf` the recorded confidence (default `"low"`); sufficiency is
`(count ≥ 3 ∧ conf ∈ {high, medium}) ∨ (count ≥ 1 ∧ conf = "high")`;
on insufficiency set the `low_evidence` flag; always record the
`confidence` flag. -/
def checkEvidence (st : GState) : GState :=
  let count := st.retrieved_chunks.length
  let conf := dgetD st.evidence_quality "confidence" (.str "low")
  let sufficient :=
    (decide (3 ≤ count) && (conf.eqStr "high" || conf.eqStr "medium"))
      || (decide (1 ≤ count) && conf.eqStr "high")
  let flags1 :=
    if sufficient then st.flags else dset st.flags "low_evidence" (.bool true)
  { st with has_sufficient_evidence := sufficient
            flags := dset flags1 "confidence" conf }

/-- `_format_sources` on one enumerated chunk dict: header
`[i] doc_title`, extended with ` - section` and ` (p.N)` when those
metadata values are truthy, then a newline and the chunk content.
NOTE: it reads the metadata under the key `"metadata"`. -/
def formatSourceEntry (i : Nat) (c : List (String × PyVal)) : String :=
  let meta := (dgetD c "metadata" (.dict [])).asDict
  let header0 := "[" ++ toString i ++ "] " ++ pyStr (dgetD c "doc_title" (.str "Document"))
  let header1 :=
    if pyTruthy (dgetD meta "section" .none) then
      header0 ++ " - " ++ pyStr (dgetD meta "section" .none)
    else header0
  let header2 :=
    if pyTruthy (dgetD meta "page" .none) then
      header1 ++ " (p." ++ pyStr (dgetD meta "page" .none) ++ ")"
    else header1
  header2 ++ "\n" ++ (dgetD c "content" .none).asStr

/-- Python `enumerate(l, start)`. -/
def enumFrom {α : Type} : Nat → List α → List (Nat × α)
  | _, [] => []
  | i, x :: xs => (i, x) :: enumFrom (i + 1) xs

/-- `WorkflowNodes._format_sources`: numbered source entries joined by
`\n\n---\n\n`. -/
def formatSources (chunks : List (List (String × PyVal))) : String :=
  String.intercalate "\n\n---\n\n"
    ((enumFrom 1 chunks).map (fun ic => formatSourceEntry ic.1 ic.2))

/-- `WorkflowNodes.generate_response`.  The chat-completion capability is
the parameter `chat` (system prompt, user prompt → response text or
failure); `elapsedMs` abstracts the wall-clock latency of the call.  The
returned `Bool` records whether the generative model was invoked before
the node returned. -/
def generateResponse (chat : String → String → Except String String)
    (chatModel : String) (elapsedMs : Int) (st : GState) : GState × Bool :=
  if !st.has_sufficient_evidence then
    ({ st with draft_response := REFUSAL
               flags := dset st.flags "advice_refused" (.bool true) }, false)
  else
    let sources := formatSources st.retrieved_chunks
    let userPrompt := promptFor st.intent sources st.user_query
    match chat SYSTEM_PROMPT userPrompt with
    | .ok txt =>
      ({ st with draft_response := txt
                 model_name := chatModel
                 latency_ms := st.latency_ms + elapsedMs }, true)
    | .error e =>
      ({ st with draft_response := "Error generating response: " ++ e
                 error := some e
                 latency_ms := st.latency_ms + elapsedMs }, true)

/-- Numeric value of a digit string. -/
def digitsToNat (ds : List Char) : Nat :=
  ds.foldl (fun n c => 10 * n + (c.toNat - Char.toNat (Char.ofNat 48))) 0

mutual

/-- `re.findall(r'\[(\d+)\]', s)`: scan for an opening bracket. -/
def scanMarkers : List Char → List Nat
  | [] => []
  | c :: cs => if c = '[' then scanBracket cs [] else scanMarkers cs

/-- Inside `[` with the digits read so far: a digit extends the match, a
`]` after at least one digit completes it, a fresh `[` restarts the
bracket, anything else abandons it. -/
def scanBracket : List Char → List Char → List Nat
  | [], _ => []
  | c :: cs, ds =>
    if c.isDigit then scanBracket cs (ds ++ [c])
    else if c = ']' && !ds.isEmpty then digitsToNat ds :: scanMarkers cs
    else if c = '[' then scanBracket cs []
    else scanMarkers cs

end

/-- The `Citation(...)` constructor call of `format_citations` on one
chunk dict.  NOTE: like `_format_sources`, it reads the metadata under
the key `"metadata"`. -/
def mkCitation (chunk : List (String × PyVal)) : Citation :=
  let content := (dgetD chunk "content" .none).asStr
  let meta := (dgetD chunk "metadata" (.dict [])).asDict
  { chunk_id := dgetD chunk "id" .none
    doc_title := dgetD chunk "doc_title" (.str "Unknown")
    sectionHeading := dgetD meta "section" (.str "")
    quote := if content.length > 200 then String.mk (content.data.take 200) ++ "..." else content
    page := dgetD meta "page" .none
    url := dgetD chunk "source_url" .none }

/-- The citation-list comprehension of `format_citations`: one Citation
for each chunk at 1-based position `i` with `i` among the distinct
bracketed numeric markers of the response. -/
def extractCitations (resp : String) (chunks : List (List (String × PyVal))) :
    List Citation :=
  let used := scanMarkers resp.data
  (enumFrom 1 chunks).filterMap (fun ic =>
    if used.contains ic.1 then some (mkCitation ic.2) else Option.none)

/-- `WorkflowNodes.format_citations`: extract citations, publish the
draft as the final response, and set the `possible_hallucination` flag
when more than 3 sentences longer than 50 characters carry no marker. -/
def formatCitationsNode (st : GState) : GState :=
  let citations := extractCitations st.draft_response st.retrieved_chunks
  let sentences := st.draft_response.split (fun c => c = '.' || c = '!' || c = '?')
  let uncited := (sentences.filter
    (fun s => decide (50 < s.length) && (scanMarkers s.data).isEmpty)).length
  let flags1 :=
    if uncited > 3 then dset st.flags "possible_hallucination" (.bool true)
    else st.flags
  { st with citations := citations
            final_response := st.draft_response
            flags := flags1 }

/-! ## Audit logging (`backend/app/graphs/workflow.py`,
`create_audit_logger`) -/

/-- The `AuditLog` row the audit node builds. -/
structure AuditRecord where
  conversation_id : Nat
  user_query : String
  workflow : String
  retrieved_chunk_ids : List Nat
  retrieval_scores : List (String × PyVal)
  model_name : String
  response_text : String
  citations : List Citation
  latency_ms : Int
  flags : List (String × PyVal)
  confidence_level : PyVal

/-- The `AuditLog(...)` construction inside the `try` block:
`uuid.UUID` parsing (abstracted by the fallible `parseUUID`) of the
conversation id and of each retrieved chunk id, with
`model_name = state.model_name or default` (empty string is falsy) and
`confidence_level = state.flags.get("confidence", "medium")`. -/
def buildAuditRecord (parseUUID : String → Except String Nat)
    (defaultModel : String) (st : GState) : Except String AuditRecord := do
  let conv ← parseUUID st.conversation_id
  let ids ← st.retrieved_chunks.mapM (fun c =>
    match dget c "id" with
    | some v => parseUUID v.asStr
    | Option.none => Except.error "KeyError: id")
  Except.ok
    { conversation_id := conv
      user_query := st.user_query
      workflow := st.intent
      retrieved_chunk_ids := ids
      retrieval_scores := st.retrieval_scores
      model_name := if st.model_name = "" then defaultModel else st.model_name
      response_text := st.final_response
      citations := st.citations
      latency_ms := st.latency_ms
      flags := st.flags
      confidence_level := dgetD st.flags "confidence" (.str "medium") }

/-- The audit node: build the record and persist it (`persist` abstracts
`db.add` + `commit`); any failure of either step is caught, logged and
rolled back, and the state is returned unchanged in every case. -/
def auditLogger (parseUUID : String → Except String Nat) (defaultModel : String)
    (persist : AuditRecord → Except String Unit) (st : GState) : GState :=
  match buildAuditRecord parseUUID defaultModel st >>= persist with
  | .ok _ => st
  | .error _ => st

/-- A workflow state with the `GraphState` model defaults, used by the
concrete witnesses below. -/
def baseState : GState :=
  { tenant_id := "tenant-1"
    client_id := Option.none
    user_id := "user-1"
    conversation_id := "conv-1"
    user_query := "What are the risk factors?"
    intent := "qa"
    doc_types := Option.none
    company_filter := Option.none
    retrieved_chunks := []
    retrieval_scores := []
    has_sufficient_evidence := false
    evidence_quality := []
    draft_response := ""
    final_response := ""
    citations := []
    flags := []
    model_name := ""
    latency_ms := 0
    error := Option.none }

/-! ## Helper lemmas -/

theorem eqStr_iff (v : PyVal) (s : String) : v.eqStr s = true ↔ v = .str s := by
  cases v <;> simp [PyVal.eqStr]

theorem dget_map_set_self (d : List (String × PyVal)) (k : String) (v : PyVal)
    (h : (d.find? (fun p => p.1 == k)).isSome) :
    dget (d.map (fun p => if p.1 == k then (k, v) else p)) k = some v := by
  induction d with
  | nil => simp [List.find?] at h
  | cons p rest ih =>
    by_cases hp : p.1 = k
    · simp [dget, List.find?, hp]
    · have hne : (p.1 == k) = false := beq_false_of_ne hp
      simp only [List.find?, hne] at h
      simpa [dget, List.find?, hne] using ih h

theorem dget_cons (p : String × PyVal) (l : List (String × PyVal)) (k : String) :
    dget (p :: l) k = if p.1 == k then some p.2 else dget l k := by
  cases h : p.1 == k <;> simp [dget, List.find?, h]

theorem dget_map_set_ne (d : List (String × PyVal)) (k k' : String) (v : PyVal)
    (h : k' ≠ k) :
    dget (d.map (fun p => if p.1 == k then (k, v) else p)) k' = dget d k' := by
  induction d with
  | nil => rfl
  | cons p rest ih =>
    by_cases hp : p.1 = k
    · have h1 : (p.1 == k) = true := beq_iff_eq.mpr hp
      have hkk : (k == k') = false := beq_false_of_ne (fun hh => h hh.symm)
      have hpk : (p.1 == k') = false :=
        beq_false_of_ne (fun hh => h (hp ▸ hh).symm)
      rw [List.map_cons, h1, if_pos rfl, dget_cons, dget_cons]
      simp only [hkk, hpk, if_neg, Bool.false_eq_true, if_false]
      exact ih
    · have h1 : (p.1 == k) = false := beq_false_of_ne hp
      rw [List.map_cons, h1]
      simp only [Bool.false_eq_true, if_false]
      rw [dget_cons, dget_cons]
      cases h2 : p.1 == k'
      · simpa using ih
      · simp

theorem dget_dset_self (d : List (String × PyVal)) (k : String) (v : PyVal) :
    dget (dset d k v) k = some v := by
  unfold dset
  by_cases h : (d.find? (fun p => p.1 == k)).isSome
  · simpa [h] using dget_map_set_self d k v h
  · have hnone : d.find? (fun p => p.1 == k) = Option.none := by
      cases hh : d.find? (fun p => p.1 == k) with
      | none => rfl
      | some x => rw [hh] at h; simp at h
    have : dget d k = Option.none := by simp [dget, hnone]
    simp [h, dget, List.find?_append, hnone]

theorem dget_dset_ne (d : List (String × PyVal)) (k k' : String) (v : PyVal)
    (h : k' ≠ k) : dget (dset d k v) k' = dget d k' := by
  unfold dset
  by_cases hs : (d.find? (fun p => p.1 == k)).isSome
  · simpa [hs] using dget_map_set_ne d k k' v h
  · have hkk : (k == k') = false := beq_false_of_ne (fun hh => h hh.symm)
    simp [hs, dget, List.find?_append, List.find?, hkk]

/-! ## C2: the evidence gate -/

/-- C2: `check_evidence` sets `has_sufficient_evidence` exactly when
`(count ≥ 3 ∧ conf ∈ {high, medium}) ∨ (count ≥ 1 ∧ conf = "high")`,
where `count` is the number of retrieved chunks and `conf` the recorded
confidence defaulting to `"low"`; when insufficient it sets the
`low_evidence` flag, and in every case it records the `confidence`
flag. -/
theorem check_evidence_gate (st : GState) :
    ((checkEvidence st).has_sufficient_evidence = true ↔
      ((3 ≤ st.retrieved_chunks.length
          ∧ (dgetD st.evidence_quality "confidence" (.str "low") = .str "high"
             ∨ dgetD st.evidence_quality "confidence" (.str "low") = .str "medium"))
        ∨ (1 ≤ st.retrieved_chunks.length
            ∧ dgetD st.evidence_quality "confidence" (.str "low") = .str "high")))
    ∧ ((checkEvidence st).has_sufficient_evidence = false →
        dget (checkEvidence st).flags "low_evidence" = some (.bool true))
    ∧ dget (checkEvidence st).flags "confidence"
        = some (dgetD st.evidence_quality "confidence" (.str "low")) := by
  refine ⟨?_, ?_, ?_⟩
  · simp [checkEvidence, Bool.or_eq_true, Bool.and_eq_true, decide_eq_true_iff,
      eqStr_iff]
  · intro hfalse
    have hcl : "low_evidence" ≠ "confidence" := by decide
    simp only [checkEvidence] at hfalse ⊢
    rw [dget_dset_ne _ _ _ _ hcl]
    split
    · simp_all
    · exact dget_dset_self _ _ _
  · simp only [checkEvidence]
    exact dget_dset_self _ _ _

/-- Witness for C2: a state with 2 retrieved chunks and confidence
`"medium"` is insufficient and gets the `low_evidence` flag. -/
theorem check_evidence_gate_witness :
    dget (checkEvidence { baseState with
        retrieved_chunks := [[("id", .str "1")], [("id", .str "2")]],
        evidence_quality := [("confidence", .str "medium")] }).flags "low_evidence"
      = some (.bool true) :=
  (check_evidence_gate _).2.1 (by rfl)

/-! ## C4: the refusal path -/

/-- C4: whenever `has_sufficient_evidence` is false, `generate_response`
sets the draft response to the fixed `REFUSAL` template, sets the
`advice_refused` flag, and returns without invoking the generative model
(the invocation indicator of the embedding is `false`). -/
theorem generate_response_refusal (chat : String → String → Except String String)
    (chatModel : String) (elapsedMs : Int) (st : GState)
    (h : st.has_sufficient_evidence = false) :
    (generateResponse chat chatModel elapsedMs st).1.draft_response = REFUSAL
    ∧ dget (generateResponse chat chatModel elapsedMs st).1.flags "advice_refused"
        = some (.bool true)
    ∧ (generateResponse chat chatModel elapsedMs st).2 = false := by
  refine ⟨?_, ?_, ?_⟩
  · simp [generateResponse, h]
  · simp only [generateResponse, h, Bool.not_false, if_pos]
    exact dget_dset_self _ _ _
  · simp [generateResponse, h]

/-- Witness for C4 at a concrete insufficient state. -/
theorem generate_response_refusal_witness :
    (generateResponse (fun _ _ => Except.ok "text") "gpt" 0 baseState).1.draft_response
      = REFUSAL
    ∧ (generateResponse (fun _ _ => Except.ok "text") "gpt" 0 baseState).2 = false :=
  ⟨(generate_response_refusal _ _ _ baseState rfl).1,
   (generate_response_refusal _ _ _ baseState rfl).2.2⟩

/-! ## C10: audit logging never disturbs the state -/

/-- C10: whatever the UUID parser and the persistence capability do —
including any failure — the audit node returns the workflow state
unchanged; in particular the final response, citations, flags and
latency survive, and no exception propagates (the node is a total
function into `GState`). -/
theorem audit_logger_preserves_state (parseUUID : String → Except String Nat)
    (defaultModel : String) (persist : AuditRecord → Except String Unit)
    (st : GState) :
    auditLogger parseUUID defaultModel persist st = st
    ∧ (auditLogger parseUUID defaultModel persist st).final_response = st.final_response
    ∧ (auditLogger parseUUID defaultModel persist st).citations = st.citations
    ∧ (auditLogger parseUUID defaultModel persist st).flags = st.flags
    ∧ (auditLogger parseUUID defaultModel persist st).latency_ms = st.latency_ms := by
  have h : auditLogger parseUUID defaultModel persist st = st := by
    unfold auditLogger
    split <;> rfl
  exact ⟨h, by rw [h], by rw [h], by rw [h], by rw [h]⟩

/-! ## C3: evidence-quality scoring -/

/-- A minimal retrieved chunk for concrete reranked examples. -/
def rcExample : RetrievedChunk :=
  { id := 0, document_id := 0, content := "", metadata := [], score := 0,
    doc_title := Option.none, source_url := Option.none }

/-- A rerank result with the given score. -/
def rrExample (q : ℚ) : RerankResult :=
  { chunk := rcExample, rerank_score := q, original_score := q }

/-- C3: `compute_evidence_quality` on the empty list returns count 0,
confidence `"low"`, `low_evidence` true; on a non-empty list it returns
the length, the mean rerank score, the thresholded confidence
(`"high"` iff count ≥ 5 and mean ≥ 0.7, else `"medium"` iff count ≥ 3
and mean ≥ 0.5, else `"low"`) and `low_evidence = (count < 3)`; in
particular 5 results averaging 0.9 give `"high"`, 3 averaging 0.6 give
`"medium"`, and 2 averaging 0.9 give `"low"`. -/
theorem compute_evidence_quality_spec :
    computeEvidenceQuality []
      = [("evidence_count", .int 0), ("avg_score", .rat 0),
         ("confidence", .str "low"), ("low_evidence", .bool true)]
    ∧ (∀ rs : List RerankResult, rs ≠ [] →
        dget (computeEvidenceQuality rs) "evidence_count" = some (.int rs.length)
        ∧ dget (computeEvidenceQuality rs) "avg_score"
            = some (.rat ((rs.map (fun r => r.rerank_score)).sum / (rs.length : ℚ)))
        ∧ dget (computeEvidenceQuality rs) "confidence"
            = some (.str
                (if 5 ≤ rs.length
                    ∧ 7/10 ≤ (rs.map (fun r => r.rerank_score)).sum / (rs.length : ℚ)
                 then "high"
                 else if 3 ≤ rs.length
                    ∧ 1/2 ≤ (rs.map (fun r => r.rerank_score)).sum / (rs.length : ℚ)
                 then "medium" else "low"))
        ∧ dget (computeEvidenceQuality rs) "low_evidence"
            = some (.bool (decide (rs.length < 3))))
    ∧ dget (computeEvidenceQuality (List.replicate 5 (rrExample (9/10)))) "confidence"
        = some (.str "high")
    ∧ dget (computeEvidenceQuality (List.replicate 3 (rrExample (6/10)))) "confidence"
        = some (.str "medium")
    ∧ dget (computeEvidenceQuality (List.replicate 2 (rrExample (9/10)))) "confidence"
        = some (.str "low") := by
  refine ⟨rfl, ?gen, ?hi, ?med, by rfl⟩
  case hi =>
    norm_num [computeEvidenceQuality, rrExample, dget, List.find?, List.replicate]
    exact ⟨_, rfl⟩
  case med =>
    norm_num [computeEvidenceQuality, rrExample, dget, List.find?, List.replicate]
    exact ⟨_, rfl⟩
  intro rs h
  have hne : rs.isEmpty = false := by
    cases rs with
    | nil => exact absurd rfl h
    | cons a l => rfl
  refine ⟨?_, ?_, ?_, ?_⟩ <;>
    simp [computeEvidenceQuality, hne, dget, List.find?, ge_iff_le]

/-- Witness for C3 at a concrete non-empty input: two results with
score 0.9 give count 2, mean 0.9, confidence `"low"`, `low_evidence`
true. -/
theorem compute_evidence_quality_spec_witness :
    dget (computeEvidenceQuality [rrExample (9/10), rrExample (9/10)])
        "evidence_count" = some (.int 2)
    ∧ dget (computeEvidenceQuality [rrExample (9/10), rrExample (9/10)])
        "low_evidence" = some (.bool true) := by
  have h := compute_evidence_quality_spec.2.1 [rrExample (9/10), rrExample (9/10)]
    (by simp)
  exact ⟨h.1, by simpa using h.2.2.2⟩

/-! ## C1: tenant isolation of retrieval -/

theorem mem_insertByKey {key : ChunkRow × DocRow → ℚ} {x a : ChunkRow × DocRow}
    {l : List (ChunkRow × DocRow)} (h : a ∈ insertByKey key x l) :
    a = x ∨ a ∈ l := by
  induction l with
  | nil => simpa [insertByKey] using h
  | cons y ys ih =>
    simp only [insertByKey] at h
    split at h
    · simpa using h
    · rcases List.mem_cons.mp h with h1 | h2
      · exact Or.inr (by simp [h1])
      · rcases ih h2 with h3 | h4
        · exact Or.inl h3
        · exact Or.inr (List.mem_cons_of_mem _ h4)

theorem mem_sortByKey {key : ChunkRow × DocRow → ℚ} {a : ChunkRow × DocRow}
    {l : List (ChunkRow × DocRow)} (h : a ∈ sortByKey key l) : a ∈ l := by
  induction l with
  | nil => simp [sortByKey] at h
  | cons y ys ih =>
    rcases mem_insertByKey (h : a ∈ insertByKey key y (sortByKey key ys)) with h1 | h2
    · simp [h1]
    · exact List.mem_cons_of_mem _ (ih h2)

theorem vectorSearchRows_tenant {dist : List ℚ → List ℚ → ℚ} {db : Database}
    {qe : List ℚ} {tenantId : Nat} {clientId : Option Nat}
    {docTypes : Option (List String)} {company : Option String} {topK : Nat}
    {cd : ChunkRow × DocRow}
    (h : cd ∈ vectorSearchRows dist db qe tenantId clientId docTypes company topK) :
    cd.1.tenant_id = tenantId := by
  unfold vectorSearchRows at h
  have h1 := mem_sortByKey (List.take_subset _ _ h)
  have h2 := (List.mem_filter.mp h1).2
  have h3 := (Bool.and_eq_true _ _).mp
    ((Bool.and_eq_true _ _).mp ((Bool.and_eq_true _ _).mp h2).1).1
  exact beq_iff_eq.mp h3.1

/-- C1: every row selected by the vector search (hence every
`RetrievedChunk` produced by `Retriever.retrieve`) and every row selected
by `retrieve_by_ids` satisfies the mandatory tenant predicate of the
query itself — its chunk's `tenant_id` equals the requested tenant —
for every dataset, query, and combination of optional client, doc-type
and company filters; no post-filtering of results is involved. -/
theorem retrieval_tenant_isolation
    (embed : String → List ℚ) (dist : List ℚ → List ℚ → ℚ) (db : Database)
    (query : String) (tenantId : Nat) (clientId : Option Nat)
    (docTypes : Option (List String)) (company : Option String)
    (topK : Nat) (chunkIds : List Nat) :
    (∀ cd ∈ vectorSearchRows dist db (embed query) tenantId clientId docTypes
        company topK, cd.1.tenant_id = tenantId)
    ∧ (∀ r ∈ retrieve embed dist db query tenantId clientId docTypes company topK,
        ∃ cd, cd ∈ vectorSearchRows dist db (embed query) tenantId clientId
            docTypes company topK
          ∧ r = rowToRetrieved dist (embed query) cd ∧ cd.1.tenant_id = tenantId)
    ∧ (∀ cd ∈ retrieveByIdsRows db chunkIds tenantId, cd.1.tenant_id = tenantId)
    ∧ (∀ r ∈ retrieveByIds db chunkIds tenantId,
        ∃ cd, cd ∈ retrieveByIdsRows db chunkIds tenantId
          ∧ r.id = cd.1.id ∧ cd.1.tenant_id = tenantId) := by
  refine ⟨fun cd h => vectorSearchRows_tenant h, ?_, ?_, ?_⟩
  · intro r hr
    unfold retrieve vectorSearch at hr
    rcases List.mem_map.mp hr with ⟨cd, hcd, hmap⟩
    exact ⟨cd, hcd, hmap.symm, vectorSearchRows_tenant hcd⟩
  · intro cd h
    have h2 := (List.mem_filter.mp h).2
    exact beq_iff_eq.mp ((Bool.and_eq_true _ _).mp h2).2
  · intro r hr
    unfold retrieveByIds at hr
    rcases List.mem_map.mp hr with ⟨cd, hcd, hmap⟩
    refine ⟨cd, hcd, by rw [← hmap], ?_⟩
    have h2 := (List.mem_filter.mp hcd).2
    exact beq_iff_eq.mp ((Bool.and_eq_true _ _).mp h2).2

/-- The chunk row of the tenant-isolation witness store. -/
def chunkRowExample : ChunkRow :=
  { id := 10, document_id := 20, tenant_id := 5, client_id := Option.none,
    content := "Revenue grew.", chunk_metadata := Option.none,
    embedding := [1, 0] }

/-- The document row of the tenant-isolation witness store. -/
def docRowExample : DocRow :=
  { id := 20, title := some "Annual Report", source_url := Option.none,
    source_type := "edgar", company_name := some "Acme" }

/-- A one-chunk, one-document store for the tenant-isolation witness. -/
def dbExample : Database :=
  { chunks := [chunkRowExample], documents := [docRowExample] }

/-- Witness for C1: on the concrete store, the row actually returned by
the vector search for tenant 5 has `tenant_id = 5`. -/
theorem retrieval_tenant_isolation_witness :
    chunkRowExample.tenant_id = 5 :=
  (retrieval_tenant_isolation (fun _ => [1, 0]) (fun _ _ => 0) dbExample
      "q" 5 Option.none Option.none Option.none 3 [10]).1
    (chunkRowExample, docRowExample)
    (by
      rw [show vectorSearchRows (fun _ _ => 0) dbExample [1, 0] 5 Option.none
          Option.none Option.none 3 = [(chunkRowExample, docRowExample)] from rfl]
      exact List.mem_singleton.mpr rfl)

/-! ## C6 and C7: citation extraction -/

theorem filterMap_if_eq_map_filter {α β : Type} (p : α → Bool) (f : α → β)
    (l : List α) :
    l.filterMap (fun x => if p x then some (f x) else Option.none)
      = (l.filter p).map f := by
  induction l with
  | nil => rfl
  | cons x xs ih =>
    cases h : p x <;> simp [List.filterMap_cons, List.filter_cons, h, ih]

theorem enumFrom_mem {α : Type} {n : Nat} {l : List α} {i : Nat} {c : α}
    (h : (i, c) ∈ enumFrom n l) : n ≤ i ∧ l.get? (i - n) = some c := by
  induction l generalizing n with
  | nil => simp [enumFrom] at h
  | cons x xs ih =>
    rcases List.mem_cons.mp h with h1 | h2
    · injection h1 with hi hc
      subst hi
      simp [hc.symm]
    · obtain ⟨hle, hget⟩ := ih h2
      refine ⟨Nat.le_of_succ_le hle, ?_⟩
      have : i - n = (i - (n + 1)) + 1 := by omega
      rw [this]
      simpa using hget

theorem enumFrom_map_fst {α : Type} (n : Nat) (l : List α) :
    (enumFrom n l).map Prod.fst = List.range' n l.length := by
  induction l generalizing n with
  | nil => rfl
  | cons x xs ih => simp [enumFrom, List.range'_succ, ih]

/-- The chunk dicts of the C7 counterexample (shape produced by
`retrieve_evidence`). -/
def chunkDictA : List (String × PyVal) :=
  [("id", .str "1"), ("document_id", .str "1"), ("content", .str "alpha"),
   ("chunk_metadata", .dict []), ("doc_title", .str "Doc A"),
   ("source_url", PyVal.none), ("rerank_score", .rat 1)]

/-- Second chunk dict of the C7 counterexample. -/
def chunkDictB : List (String × PyVal) :=
  [("id", .str "2"), ("document_id", .str "1"), ("content", .str "beta"),
   ("chunk_metadata", .dict []), ("doc_title", .str "Doc B"),
   ("source_url", PyVal.none), ("rerank_score", .rat 1)]

/-- C7 counterexample: a response whose only markers are `[1]` and `[3]`
yields a single citation when only 2 chunks were retrieved — not the 2
citations the claim promises independently of the number of retrieved
chunks (the marker `[3]` is silently dropped). -/
theorem citation_count_cex :
    scanMarkers ("[1] and [3]").data = [1, 3]
    ∧ (extractCitations "[1] and [3]" [chunkDictA, chunkDictB]).length = 1 :=
  ⟨rfl, rfl⟩

/-- C7 (amended): citation extraction emits exactly one `Citation` per
distinct marker `[n]` whose index is in range (`1 ≤ n ≤` number of
retrieved chunks), each referencing the chunk at 1-based position `n`;
out-of-range markers produce nothing. -/
theorem citation_extraction_per_marker (resp : String)
    (chunks : List (List (String × PyVal))) :
    extractCitations resp chunks
      = ((enumFrom 1 chunks).filter
          (fun ic => (scanMarkers resp.data).contains ic.1)).map
          (fun ic => mkCitation ic.2)
    ∧ (extractCitations resp chunks).length
        = ((scanMarkers resp.data).dedup.filter
            (fun n => decide (1 ≤ n) && decide (n ≤ chunks.length))).length
    ∧ (∀ ic ∈ (enumFrom 1 chunks).filter
          (fun ic => (scanMarkers resp.data).contains ic.1),
        chunks.get? (ic.1 - 1) = some ic.2) := by
  refine ⟨?_, ?_, ?_⟩
  · exact filterMap_if_eq_map_filter _ _ _
  · have hfirst : extractCitations resp chunks
        = ((enumFrom 1 chunks).filter
            (fun ic => (scanMarkers resp.data).contains ic.1)).map
            (fun ic => mkCitation ic.2) :=
      filterMap_if_eq_map_filter _ _ _
    rw [hfirst, List.length_map]
    have hfm : List.filter (fun n => (scanMarkers resp.data).contains n)
        (List.map Prod.fst (enumFrom 1 chunks))
        = List.map Prod.fst (List.filter
            ((fun n => (scanMarkers resp.data).contains n) ∘ Prod.fst)
            (enumFrom 1 chunks)) :=
      List.filter_map Prod.fst (enumFrom 1 chunks)
    have hlen : (List.filter
        (fun ic => (scanMarkers resp.data).contains ic.1)
        (enumFrom 1 chunks)).length
        = (List.filter (fun n => (scanMarkers resp.data).contains n)
            (List.range' 1 chunks.length)).length := by
      rw [← enumFrom_map_fst 1 chunks, hfm, List.length_map]
      rfl
    rw [hlen]
    have hnd1 : (List.filter (fun n => (scanMarkers resp.data).contains n)
        (List.range' 1 chunks.length)).Nodup :=
      List.Nodup.filter _ (List.nodup_range' 1 chunks.length)
    have hnd2 : ((scanMarkers resp.data).dedup.filter
        (fun n => decide (1 ≤ n) && decide (n ≤ chunks.length))).Nodup :=
      List.Nodup.filter _ (List.nodup_dedup _)
    rw [← List.toFinset_card_of_nodup hnd1, ← List.toFinset_card_of_nodup hnd2]
    congr 1
    ext n
    simp only [List.mem_toFinset, List.mem_filter, List.mem_range'_1,
      List.mem_dedup, Bool.and_eq_true, decide_eq_true_iff]
    constructor
    · rintro ⟨⟨h1, h2⟩, h3⟩
      exact ⟨List.elem_iff.mp h3, h1, by omega⟩
    · rintro ⟨h3, h1, h2⟩
      exact ⟨⟨h1, by omega⟩, List.elem_iff.mpr h3⟩
  · intro ic hic
    have h1 := (List.mem_filter.mp hic).1
    have h2 := enumFrom_mem (show (ic.1, ic.2) ∈ enumFrom 1 chunks from by
      simpa using h1)
    exact h2.2

/-- Witness for C7 (amended): with 4 retrieved chunks and a response
whose markers are `[1]` and `[3]`, exactly 2 citations are emitted. -/
theorem citation_extraction_per_marker_witness :
    (extractCitations "[1] and [3]" [chunkDictA, chunkDictB, chunkDictA, chunkDictB]).length
      = 2 := by
  rw [(citation_extraction_per_marker "[1] and [3]"
      [chunkDictA, chunkDictB, chunkDictA, chunkDictB]).2.1]
  rfl

/-- A retrieved-chunk dict whose content has 201 characters. -/
def longContentDict : List (String × PyVal) :=
  [("id", .str "9"), ("document_id", .str "1"),
   ("content", .str (String.mk (List.replicate 201 'a'))),
   ("chunk_metadata", .dict []), ("doc_title", .str "Doc"),
   ("source_url", PyVal.none), ("rerank_score", .rat 1)]

set_option maxRecDepth 4000 in
/-- C6 counterexample: citing a chunk whose content has 201 characters
produces a quote of 203 characters (the first 200 characters plus the
three-character ellipsis `"..."`), so the quote is not "at most 200
characters". -/
theorem citation_quote_length_cex :
    ∃ cit ∈ extractCitations "[1]" [longContentDict],
      cit.quote.length = 203 ∧ 200 < cit.quote.length := by
  refine ⟨mkCitation longContentDict, ?_, rfl, by decide⟩
  rw [show extractCitations "[1]" [longContentDict]
      = [mkCitation longContentDict] from rfl]
  exact List.mem_singleton.mpr rfl

/-- C6 (amended): every extracted citation's quote is the cited chunk's
content itself when that content has at most 200 characters, and
otherwise its first 200 characters with an ellipsis appended — hence
the quote has at most 203 (not 200) characters. -/
theorem citation_quote_truncation (resp : String)
    (chunks : List (List (String × PyVal))) :
    ∀ cit ∈ extractCitations resp chunks,
      cit.quote.length ≤ 203
      ∧ ∃ c ∈ chunks,
          cit.quote =
            (if 200 < ((dgetD c "content" PyVal.none).asStr).length
             then String.mk (((dgetD c "content" PyVal.none).asStr).data.take 200)
                 ++ "..."
             else (dgetD c "content" PyVal.none).asStr) := by
  intro cit hcit
  unfold extractCitations at hcit
  rcases List.mem_filterMap.mp hcit with ⟨ic, hic, hf⟩
  have hc : ic.2 ∈ chunks := by
    have := enumFrom_mem (show (ic.1, ic.2) ∈ enumFrom 1 chunks from by
      simpa using hic)
    exact List.get?_mem this.2
  have hcit2 : cit = mkCitation ic.2 := by
    split at hf
    · exact (Option.some.inj hf).symm
    · exact absurd hf (by simp)
  subst hcit2
  set content := ((dgetD ic.2 "content" PyVal.none).asStr) with hcontent
  have hquote : (mkCitation ic.2).quote
      = (if 200 < content.length
         then String.mk (content.data.take 200) ++ "..."
         else content) := rfl
  refine ⟨?_, ic.2, hc, hquote⟩
  rw [hquote]
  by_cases hlen : 200 < content.length
  · rw [if_pos hlen, String.length_append, String.length_mk, List.length_take]
    have h3 : ("..." : String).length = 3 := rfl
    have h4 : (200 : Nat) ⊓ content.data.length = 200 := by
      have : content.data.length = content.length := rfl
      omega
    omega
  · rw [if_neg hlen]
    omega

/-- Witness for C6 (amended): on the concrete long-content chunk the
quote is exactly the 200-character truncation with ellipsis. -/
theorem citation_quote_truncation_witness :
    (mkCitation longContentDict).quote.length ≤ 203 :=
  (citation_quote_truncation "[1]" [longContentDict] (mkCitation longContentDict)
    (by
      rw [show extractCitations "[1]" [longContentDict]
          = [mkCitation longContentDict] from rfl]
      exact List.mem_singleton.mpr rfl)).1

/-! ## C8: numbered-sources formatting loses section and page -/

/-- A retrieved chunk whose stored metadata carries a section heading
and a page number. -/
def bugChunk : RetrievedChunk :=
  { id := 1, document_id := 1, content := "Total revenue grew twelve percent.",
    metadata := [("section", .str "Risk Factors"), ("page", .int 12)],
    score := 1, doc_title := some "Annual Report", source_url := Option.none }

/-- The reranked result wrapping `bugChunk`. -/
def bugRerank : RerankResult :=
  { chunk := bugChunk, rerank_score := 1, original_score := 1 }

/-- C8 (code bug): `retrieve_evidence` stores the chunk metadata under
the dict key `"chunk_metadata"`, but `_format_sources` reads the key
`"metadata"`; consequently, for a retrieved chunk whose stored metadata
contains both a section heading and a page number, the numbered source
submitted to the model carries neither — only `[i] title` and the
content — contradicting the claim (and the formatting code's own
intent). -/
theorem format_sources_drops_section_and_page :
    dget (mkRetrievedDict bugRerank) "chunk_metadata"
      = some (.dict [("section", .str "Risk Factors"), ("page", .int 12)])
    ∧ dget (mkRetrievedDict bugRerank) "metadata" = Option.none
    ∧ formatSources (retrieveEvidenceChunks [bugRerank])
      = "[1] Annual Report\nTotal revenue grew twelve percent." :=
  ⟨rfl, rfl, rfl⟩

/-! ## C9: section splitting — overlap bound and paragraph atomicity -/

theorem sumTk_cons (tk : String → Nat) (p : String) (ps : List String) :
    sumTk tk (p :: ps) = tk p + sumTk tk ps := by
  simp [sumTk]

theorem takeOverlap_sum (tk : String → Nat) (ov : Nat) (l : List String)
    (acc : Nat) (h : acc ≤ ov) :
    acc + sumTk tk (takeOverlap tk ov l acc) ≤ ov := by
  induction l generalizing acc with
  | nil => simpa [takeOverlap, sumTk]
  | cons p ps ih =>
    simp only [takeOverlap]
    split
    · have := ih (acc + tk p) (by assumption)
      rw [sumTk_cons]
      omega
    · simpa [sumTk]

theorem sumTk_reverse (tk : String → Nat) (l : List String) :
    sumTk tk l.reverse = sumTk tk l := by
  simp [sumTk, List.map_reverse, List.sum_reverse]

theorem overlapParas_sum (tk : String → Nat) (ov : Nat) (buf : List String) :
    sumTk tk (overlapParas tk ov buf) ≤ ov := by
  have h := takeOverlap_sum tk ov buf.reverse 0 (Nat.zero_le _)
  rw [Nat.zero_add] at h
  rw [overlapParas, sumTk_reverse]
  exact h

theorem splitLoop_buf_mem (tk : String → Nat) (size ov : Nat)
    (ps : List String) (buf : List String) (bufTk : Nat) (q : String)
    (hq : q ∈ buf) :
    ∃ c ∈ splitLoop tk size ov ps buf bufTk, q ∈ c := by
  induction ps generalizing buf bufTk with
  | nil =>
    have hne : buf.isEmpty = false := by
      cases buf with
      | nil => cases hq
      | cons a l => rfl
    refine ⟨buf, ?_, hq⟩
    simp [splitLoop, hne]
  | cons para rest ih =>
    simp only [splitLoop]
    split
    · exact ih (buf ++ [para]) _ (List.mem_append_left _ hq)
    · have hne : buf.isEmpty = false := by
        cases buf with
        | nil => cases hq
        | cons a l => rfl
      refine ⟨buf, ?_, hq⟩
      simp [hne]

theorem splitLoop_para_mem (tk : String → Nat) (size ov : Nat)
    (ps : List String) (buf : List String) (bufTk : Nat) (p : String)
    (hp : p ∈ ps) :
    ∃ c ∈ splitLoop tk size ov ps buf bufTk, p ∈ c := by
  induction ps generalizing buf bufTk with
  | nil => cases hp
  | cons para rest ih =>
    rcases List.mem_cons.mp hp with h1 | h2
    · subst h1
      simp only [splitLoop]
      split
      · exact splitLoop_buf_mem tk size ov rest (buf ++ [p]) _ p
          (List.mem_append_right _ (List.mem_singleton.mpr rfl))
      · obtain ⟨c, hc, hpc⟩ := splitLoop_buf_mem tk size ov rest
          (overlapParas tk ov buf ++ [p]) _ p
          (List.mem_append_right _ (List.mem_singleton.mpr rfl))
        exact ⟨c, List.mem_append_right _ hc, hpc⟩
    · simp only [splitLoop]
      split
      · exact ih _ _ h2
      · obtain ⟨c, hc, hpc⟩ := ih _ _ h2
        exact ⟨c, List.mem_append_right _ hc, hpc⟩

/-- C9: in `_split_large_section`, (a) the overlap re-seeded from a
flushed buffer into the next one always has cumulative token length at
most `chunk_overlap` (`overlapParas` is exactly the re-seeding step of
`splitLoop`), and (b) every stripped non-empty paragraph whose token
length exceeds `chunk_size` appears whole inside one of the emitted
chunks — it is never split further. -/
theorem split_section_overlap_and_atomicity (tk : String → Nat) (size ov : Nat)
    (paragraphs : List String) :
    (∀ buf : List String, sumTk tk (overlapParas tk ov buf) ≤ ov)
    ∧ (∀ p ∈ (paragraphs.map pyStrip).filter (fun q => q ≠ ""),
        size < tk p →
          ∃ c ∈ splitLargeSection tk size ov paragraphs, p ∈ c) := by
  refine ⟨fun buf => overlapParas_sum tk ov buf, ?_⟩
  intro p hp _
  exact splitLoop_para_mem tk size ov _ [] 0 p hp

/-- Witness for C9: with `String.length` as the tokenizer, chunk size 10
and overlap 3, the 31-character paragraph is emitted whole inside one
chunk. -/
theorem split_section_overlap_and_atomicity_witness :
    ∃ c ∈ splitLargeSection (fun s => s.length) 10 3
        ["short", "a very long paragraph exceeding"],
      "a very long paragraph exceeding" ∈ c :=
  (split_section_overlap_and_atomicity (fun s => s.length) 10 3
      ["short", "a very long paragraph exceeding"]).2
    "a very long paragraph exceeding" (by decide) (by decide)

/-! ## C5: merge-and-dedupe -/

/-- C5 counterexample: with a vector list containing the same chunk
twice and an empty keyword list, `merge_and_dedupe` returns the chunk
twice — the zipped interleaving phase is empty, and the remainder pass
filters both copies against the seen set of that phase only, so the
output does contain the same chunk id twice. -/
theorem merge_and_dedupe_duplicate_cex :
    (mergeAndDedupe [rcExample, rcExample] []).map (fun c => c.id) = [0, 0]
    ∧ ¬ ((mergeAndDedupe [rcExample, rcExample] []).map (fun c => c.id)).Nodup := by
  refine ⟨rfl, ?_⟩
  rw [show (mergeAndDedupe [rcExample, rcExample] []).map (fun c => c.id)
      = [0, 0] from rfl]
  decide

theorem interleaveStep_spec (ps : List (RetrievedChunk × RetrievedChunk))
    (seen : List Nat) :
    ((interleaveStep seen ps).1.map (fun c => c.id)).Nodup
    ∧ (∀ x ∈ (interleaveStep seen ps).1, x.id ∈ (interleaveStep seen ps).2)
    ∧ (∀ x ∈ (interleaveStep seen ps).1, x.id ∉ seen)
    ∧ (∀ a ∈ seen, a ∈ (interleaveStep seen ps).2)
    ∧ (∀ vk ∈ ps, vk.1.id ∈ (interleaveStep seen ps).2
        ∧ vk.2.id ∈ (interleaveStep seen ps).2) := by
  induction ps generalizing seen with
  | nil =>
    refine ⟨List.nodup_nil, ?_, ?_, ?_, ?_⟩ <;> simp [interleaveStep]
  | cons vk rest ih =>
    obtain ⟨v, k⟩ := vk
    by_cases hv : v.id ∈ seen
    · by_cases hk : k.id ∈ seen
      · -- both already seen: nothing emitted at this rank
        have hstep : interleaveStep seen ((v, k) :: rest)
            = interleaveStep seen rest := by
          simp [interleaveStep, hv, hk]
        obtain ⟨ih1, ih2, ih3, ih4, ih5⟩ := ih seen
        rw [hstep]
        refine ⟨ih1, ih2, ih3, ih4, ?_⟩
        intro p hp
        rcases List.mem_cons.mp hp with h1 | h2
        · subst h1
          exact ⟨ih4 _ hv, ih4 _ hk⟩
        · exact ih5 p h2
      · -- only the keyword chunk is new
        have hstep : interleaveStep seen ((v, k) :: rest)
            = ((k :: (interleaveStep (k.id :: seen) rest).1),
               (interleaveStep (k.id :: seen) rest).2) := by
          simp [interleaveStep, hv, hk]
        obtain ⟨ih1, ih2, ih3, ih4, ih5⟩ := ih (k.id :: seen)
        rw [hstep]
        refine ⟨?_, ?_, ?_, ?_, ?_⟩
        · refine List.nodup_cons.mpr ⟨?_, ih1⟩
          intro hmem
          rcases List.mem_map.mp hmem with ⟨x, hx, hxid⟩
          exact ih3 x hx (by rw [hxid]; exact List.mem_cons_self _ _)
        · intro x hx
          rcases List.mem_cons.mp hx with h1 | h2
          · subst h1; exact ih4 _ (List.mem_cons_self _ _)
          · exact ih2 x h2
        · intro x hx
          rcases List.mem_cons.mp hx with h1 | h2
          · subst h1; exact hk
          · exact fun hc => ih3 x h2 (List.mem_cons_of_mem _ hc)
        · intro a ha
          exact ih4 a (List.mem_cons_of_mem _ ha)
        · intro p hp
          rcases List.mem_cons.mp hp with h1 | h2
          · subst h1
            exact ⟨ih4 _ (List.mem_cons_of_mem _ hv),
                   ih4 _ (List.mem_cons_self _ _)⟩
          · exact ih5 p h2
    · by_cases hk : k.id ∈ v.id :: seen
      · -- only the vector chunk is new
        have hstep : interleaveStep seen ((v, k) :: rest)
            = ((v :: (interleaveStep (v.id :: seen) rest).1),
               (interleaveStep (v.id :: seen) rest).2) := by
          simp only [interleaveStep, if_neg hv, if_pos hk]
        obtain ⟨ih1, ih2, ih3, ih4, ih5⟩ := ih (v.id :: seen)
        rw [hstep]
        refine ⟨?_, ?_, ?_, ?_, ?_⟩
        · refine List.nodup_cons.mpr ⟨?_, ih1⟩
          intro hmem
          rcases List.mem_map.mp hmem with ⟨x, hx, hxid⟩
          exact ih3 x hx (by rw [hxid]; exact List.mem_cons_self _ _)
        · intro x hx
          rcases List.mem_cons.mp hx with h1 | h2
          · subst h1; exact ih4 _ (List.mem_cons_self _ _)
          · exact ih2 x h2
        · intro x hx
          rcases List.mem_cons.mp hx with h1 | h2
          · subst h1; exact hv
          · exact fun hc => ih3 x h2 (List.mem_cons_of_mem _ hc)
        · intro a ha
          exact ih4 a (List.mem_cons_of_mem _ ha)
        · intro p hp
          rcases List.mem_cons.mp hp with h1 | h2
          · subst h1
            refine ⟨ih4 _ (List.mem_cons_self _ _), ?_⟩
            exact ih4 _ hk
          · exact ih5 p h2
      · -- both chunks are new: vector first, then keyword
        have hstep : interleaveStep seen ((v, k) :: rest)
            = ((v :: k :: (interleaveStep (k.id :: v.id :: seen) rest).1),
               (interleaveStep (k.id :: v.id :: seen) rest).2) := by
          simp only [interleaveStep, if_neg hv, if_neg hk]
        obtain ⟨ih1, ih2, ih3, ih4, ih5⟩ := ih (k.id :: v.id :: seen)
        have hkv : k.id ≠ v.id := fun h => hk (h ▸ List.mem_cons_self _ _)
        rw [hstep]
        refine ⟨?_, ?_, ?_, ?_, ?_⟩
        · refine List.nodup_cons.mpr ⟨?_, List.nodup_cons.mpr ⟨?_, ih1⟩⟩
          · intro hmem
            rcases List.mem_cons.mp hmem with h1 | h2
            · exact hkv h1.symm
            · rcases List.mem_map.mp h2 with ⟨x, hx, hxid⟩
              exact ih3 x hx (by
                rw [hxid]
                exact List.mem_cons_of_mem _ (List.mem_cons_self _ _))
          · intro hmem
            rcases List.mem_map.mp hmem with ⟨x, hx, hxid⟩
            exact ih3 x hx (by rw [hxid]; exact List.mem_cons_self _ _)
        · intro x hx
          rcases List.mem_cons.mp hx with h1 | h2
          · subst h1
            exact ih4 _ (List.mem_cons_of_mem _ (List.mem_cons_self _ _))
          · rcases List.mem_cons.mp h2 with h3 | h4
            · subst h3; exact ih4 _ (List.mem_cons_self _ _)
            · exact ih2 x h4
        · intro x hx
          rcases List.mem_cons.mp hx with h1 | h2
          · subst h1; exact hv
          · rcases List.mem_cons.mp h2 with h3 | h4
            · subst h3
              exact fun hc => hk (List.mem_cons_of_mem _ hc)
            · exact fun hc =>
                ih3 x h4 (List.mem_cons_of_mem _ (List.mem_cons_of_mem _ hc))
        · intro a ha
          exact ih4 a (List.mem_cons_of_mem _ (List.mem_cons_of_mem _ ha))
        · intro p hp
          rcases List.mem_cons.mp hp with h1 | h2
          · subst h1
            exact ⟨ih4 _ (List.mem_cons_of_mem _ (List.mem_cons_self _ _)),
                   ih4 _ (List.mem_cons_self _ _)⟩
          · exact ih5 p h2

/-- C5 (amended): `merge_and_dedupe` interleaves the zipped prefix one
item at a time (vector item first), skipping ids already emitted, then
appends each list's items not yet seen, in order; provided each input
list is free of internal duplicate ids, the result never contains the
same chunk id twice (ids may still be shared between the two lists). -/
theorem merge_and_dedupe_nodup (v k : List RetrievedChunk)
    (hv : (v.map (fun c => c.id)).Nodup) (hk : (k.map (fun c => c.id)).Nodup) :
    ((mergeAndDedupe v k).map (fun c => c.id)).Nodup := by
  obtain ⟨h1, h2, _, _, h5⟩ := interleaveStep_spec (v.zip k) []
  set m := (interleaveStep [] (v.zip k)).1 with hm
  set s := (interleaveStep [] (v.zip k)).2 with hs
  have hdef : mergeAndDedupe v k
      = m ++ v.filter (fun c => !(s.contains c.id))
          ++ k.filter (fun c => !(s.contains c.id)) := rfl
  have hfilt : ∀ (l : List RetrievedChunk) (c : RetrievedChunk),
      c ∈ l.filter (fun c => !(s.contains c.id)) → c.id ∉ s := by
    intro l c hc
    have hb := (List.mem_filter.mp hc).2
    simpa [List.contains, List.elem_eq_mem] using hb
  have hshortV : v.length ≤ k.length → ∀ c ∈ v, c.id ∈ s := by
    intro hlen c hc
    have hzip : (v.zip k).map Prod.fst = v := List.map_fst_zip v k hlen
    rcases List.mem_map.mp (hzip ▸ hc) with ⟨p, hp, hfst⟩
    exact hfst ▸ (h5 p hp).1
  have hshortK : k.length ≤ v.length → ∀ c ∈ k, c.id ∈ s := by
    intro hlen c hc
    have hzip : (v.zip k).map Prod.snd = k := List.map_snd_zip v k hlen
    rcases List.mem_map.mp (hzip ▸ hc) with ⟨p, hp, hsnd⟩
    exact hsnd ▸ (h5 p hp).2
  rw [hdef, List.map_append, List.map_append, List.nodup_append,
    List.nodup_append]
  have hfvNodup : ((v.filter (fun c => !(s.contains c.id))).map
      (fun c => c.id)).Nodup :=
    List.Nodup.sublist (List.Sublist.map _ (List.filter_sublist v)) hv
  have hfkNodup : ((k.filter (fun c => !(s.contains c.id))).map
      (fun c => c.id)).Nodup :=
    List.Nodup.sublist (List.Sublist.map _ (List.filter_sublist k)) hk
  have hdisjMV : (m.map (fun c => c.id)).Disjoint
      ((v.filter (fun c => !(s.contains c.id))).map (fun c => c.id)) := by
    intro a ham hafv
    rcases List.mem_map.mp ham with ⟨x, hx, hxid⟩
    rcases List.mem_map.mp hafv with ⟨c, hc, hcid⟩
    exact hfilt v c hc (hcid ▸ hxid ▸ h2 x hx)
  refine ⟨⟨h1, hfvNodup, hdisjMV⟩, hfkNodup, ?_⟩
  intro a ha hafk
  rcases List.mem_map.mp hafk with ⟨c, hc, hcid⟩
  have hcnot : c.id ∉ s := hfilt k c hc
  rcases List.mem_append.mp ha with ham | hafv
  · rcases List.mem_map.mp ham with ⟨x, hx, hxid⟩
    exact hcnot (hcid ▸ hxid ▸ h2 x hx)
  · rcases List.mem_map.mp hafv with ⟨c', hc', hcid'⟩
    have hc'v : c' ∈ v := (List.mem_filter.mp hc').1
    have hck : c ∈ k := (List.mem_filter.mp hc).1
    rcases Nat.le_total v.length k.length with hlen | hlen
    · exact hfilt v c' hc' (hshortV hlen c' hc'v)
    · exact hcnot (hshortK hlen c hck)

/-- Witness for C5 (amended): two duplicate-free inputs sharing no rank
produce a duplicate-free merge. -/
theorem merge_and_dedupe_nodup_witness :
    ((mergeAndDedupe [rcExample] [bugChunk]).map (fun c => c.id)).Nodup :=
  merge_and_dedupe_nodup [rcExample] [bugChunk] (by decide) (by decide)

end WealthAdvisor
